import Mathlib

/-!
Verification of the named-query parser and query runner of
`src/pipeline.py` (Data-Pipeline-SQL-Analytics), together with the
revenue-rank computation of the warehouse builder's `transform` step.

Strings are modelled as `List Char`; a file is modelled as the list of its
lines exactly as Python's `for line in f` yields them (each line keeps its
trailing newline, except possibly the last).
-/

set_option maxHeartbeats 1000000

namespace Pipeline

/-- The whitespace characters removed by Python's `str.strip()` (for the
ASCII range relevant to this code base). -/
def isSpaceChar (c : Char) : Bool :=
  c = ' ' || c = '\t' || c = '\n' || c = '\r' || c = '\x0B' || c = '\x0C'

/-- Python `s.strip()`: remove leading and trailing whitespace. -/
def pyStrip (l : List Char) : List Char :=
  ((l.dropWhile isSpaceChar).reverse.dropWhile isSpaceChar).reverse

/-- Python `s.startswith(p)` on character lists. -/
def startsWithChars : List Char → List Char → Bool
  | [], _ => true
  | _ :: _, [] => false
  | p :: ps, c :: cs => p == c && startsWithChars ps cs

/-- The directive marker `-- name:` from `parse_named_queries`
(src/pipeline.py line 152). -/
def marker : List Char := "-- name:".data

/-- `line.strip().startswith("-- name:")` (src/pipeline.py line 152). -/
def isDirective (line : List Char) : Bool :=
  startsWithChars marker (pyStrip line)

/-- Everything after the first `:` of the line, i.e. `line.split(":", 1)[1]`
(src/pipeline.py line 156).  The source raises an IndexError when the line
has no colon; in `parse_named_queries` this function is only applied to
directive lines, which always contain the colon of the marker, so the `[]`
default branch is never reached there. -/
def afterColon : List Char → List Char
  | [] => []
  | c :: cs => if c = ':' then cs else afterColon cs

/-- The query name recorded for a directive line:
`line.split(":", 1)[1].strip()` (src/pipeline.py line 156). -/
def nameOf (line : List Char) : List Char :=
  pyStrip (afterColon line)

/-- Python truthiness of `current_name : Optional[str]`: `None` and the
empty string are falsy. -/
def pyTruthy : Option (List Char) → Bool
  | none => false
  | some s => !s.isEmpty

/-- The condition of `if current_name and buffer:`
(src/pipeline.py lines 153 and 160). -/
def shouldFlush (cn : Option (List Char)) (buf : List (List Char)) : Bool :=
  pyTruthy cn && !buf.isEmpty

/-- Python's insertion-ordered `Dict[str, str]`, as an association list:
assignment replaces the value in place when the key is present and appends
at the end otherwise. -/
abbrev QDict := List (List Char × List Char)

/-- `queries[name] = value` on the insertion-ordered dict. -/
def dictInsert (d : QDict) (k v : List Char) : QDict :=
  match d with
  | [] => [(k, v)]
  | p :: rest => if p.1 = k then (k, v) :: rest else p :: dictInsert rest k v

/-- `queries.get(name)`: value of the first entry with the given key. -/
def dictFind (d : QDict) (n : List Char) : Option (List Char) :=
  match d with
  | [] => none
  | p :: rest => if p.1 = n then some p.2 else dictFind rest n

/-- The body stored at a flush: `"".join(buffer).strip()`
(src/pipeline.py lines 154 and 161). -/
def flushBody (buf : List (List Char)) : List Char :=
  pyStrip buf.flatten

/-- The loop of `parse_named_queries` (src/pipeline.py lines 150-161),
with the trailing flush of lines 160-161 in the `[]` case.  State:
`q` = `queries`, `cn` = `current_name`, `buf` = `buffer`.  Note that the
buffer is reset only inside a flush (line 155); when no flush fires the
buffer is carried over unchanged. -/
def parseLoop (q : QDict) (cn : Option (List Char)) (buf : List (List Char)) :
    List (List Char) → QDict
  | [] =>
    if shouldFlush cn buf then dictInsert q (cn.getD []) (flushBody buf) else q
  | line :: rest =>
    if isDirective line then
      if shouldFlush cn buf then
        parseLoop (dictInsert q (cn.getD []) (flushBody buf)) (some (nameOf line)) [] rest
      else
        parseLoop q (some (nameOf line)) buf rest
    else
      parseLoop q cn (buf ++ [line]) rest

/-- `parse_named_queries` (src/pipeline.py lines 145-163), as a function of
the file's lines. -/
def parse_named_queries (lines : List (List Char)) : QDict :=
  parseLoop [] none [] lines

/-- The sequence of `(name, body)` pairs flushed by the parser loop, in
flush order.  `parseLoop` is the fold of dict assignment over this list
(`parseLoop_eq_foldl_flushList` below). -/
def flushList (cn : Option (List Char)) (buf : List (List Char)) :
    List (List Char) → List (List Char × List Char)
  | [] =>
    if shouldFlush cn buf then [(cn.getD [], flushBody buf)] else []
  | line :: rest =>
    if isDirective line then
      if shouldFlush cn buf then
        (cn.getD [], flushBody buf) :: flushList (some (nameOf line)) [] rest
      else
        flushList (some (nameOf line)) buf rest
    else
      flushList cn (buf ++ [line]) rest

/-- The loop state `(queries, current_name, buffer)` of
`parse_named_queries` after reading the given lines, before the trailing
flush of src/pipeline.py lines 160-161.  Same step structure as
`parseLoop`; `parseLoop q cn buf (xs ++ ys)` continues from
`parseState q cn buf xs` (see `parseLoop_eq_parseState`). -/
def parseState (q : QDict) (cn : Option (List Char)) (buf : List (List Char)) :
    List (List Char) → QDict × Option (List Char) × List (List Char)
  | [] => (q, cn, buf)
  | line :: rest =>
    if isDirective line then
      if shouldFlush cn buf then
        parseState (dictInsert q (cn.getD []) (flushBody buf)) (some (nameOf line)) [] rest
      else
        parseState q (some (nameOf line)) buf rest
    else
      parseState q cn (buf ++ [line]) rest

/-- The keys of the dict, in insertion order. -/
def keysOf (d : QDict) : List (List Char) :=
  d.map Prod.fst

/-- Record one value in a first-occurrence accumulator: keep the
accumulator if the value is already present, append it at the end
otherwise. -/
def addKey {α : Type} [DecidableEq α] (acc : List α) (x : α) : List α :=
  if x ∈ acc then acc else acc ++ [x]

/-- First-occurrence deduplication: the order in which distinct values
first appear in the list. -/
def dedupFirst {α : Type} [DecidableEq α] (l : List α) : List α :=
  l.foldl addKey []

/-- The value of the last assignment `name := body` in a write sequence,
starting from `init`. -/
def lastWriteFrom (init : Option (List Char)) (ps : List (List Char × List Char))
    (n : List Char) : Option (List Char) :=
  ps.foldl (fun acc p => if p.1 = n then some p.2 else acc) init

/-- Python's `<` on strings, by code points: lexicographic `≤` used by
`sorted(queries)` (src/pipeline.py line 169). -/
def lexLe : List Char → List Char → Bool
  | [], _ => true
  | _ :: _, [] => false
  | a :: as, b :: bs => if a.toNat = b.toNat then lexLe as bs else decide (a.toNat < b.toNat)

/-- Insert into a list already sorted by `le`, before the first larger
element. -/
def ordInsert {α : Type} (le : α → α → Bool) (x : α) : List α → List α
  | [] => [x]
  | y :: ys => if le x y then x :: y :: ys else y :: ordInsert le x ys

/-- Insertion sort: the model of Python's `sorted` (which output it matches
whenever `le` is a total order; on the duplicate-free key lists used here
the sorted list is unique). -/
def insSort {α : Type} (le : α → α → Bool) : List α → List α
  | [] => []
  | x :: xs => ordInsert le x (insSort le xs)

/-- `sorted(queries)`: the dict's keys in ascending lexicographic order
(src/pipeline.py line 169). -/
def pySorted (l : List (List Char)) : List (List Char) :=
  insSort lexLe l

/-- Python `sep.join(parts)`. -/
def joinSep (sep : List Char) : List (List Char) → List Char
  | [] => []
  | [x] => x
  | x :: y :: xs => x ++ sep ++ joinSep sep (y :: xs)

/-- The ASCII single-quote character of the error message. -/
def quoteChar : Char := Char.ofNat 39

/-- The message of the `SystemExit` raised by `run_queries`
(src/pipeline.py lines 169-170):
`Query '<selected>' not found. Available: <", ".join(sorted(queries))>`. -/
def notFoundMessage (sel : List Char) (d : QDict) : List Char :=
  "Query ".data ++ [quoteChar] ++ sel ++ [quoteChar] ++ " not found. Available: ".data
    ++ joinSep ", ".data (pySorted (keysOf d))

/-- The statement text sent to the engine for one query:
`plan_prefix + sql` with `plan_prefix = "EXPLAIN ANALYZE "` when `explain`
is set (src/pipeline.py lines 179-180). -/
def executedSql (explain : Bool) (sql : List Char) : List Char :=
  (if explain then "EXPLAIN ANALYZE ".data else []) ++ sql

/-- `run_queries` (src/pipeline.py lines 166-186): parses the query file,
rejects an unknown (truthy) selected name with the `SystemExit` message,
and otherwise returns the `(name, statement)` pairs executed against the
engine, in dict iteration order, skipping entries filtered out by
`if selected and name != selected: continue` (line 174).  Engine execution
and printing are external effects outside this model. -/
def run_queries (fileLines : List (List Char)) (selected : Option (List Char))
    (explain : Bool) : Except (List Char) (List (List Char × List Char)) :=
  if pyTruthy selected
      && !(decide ((selected.getD []) ∈ keysOf (parse_named_queries fileLines))) then
    Except.error (notFoundMessage (selected.getD []) (parse_named_queries fileLines))
  else
    Except.ok (((parse_named_queries fileLines).filter
        (fun p => !pyTruthy selected || decide (p.1 = selected.getD []))).map
      (fun p => (p.1, executedSql explain p.2)))

/-- A row of `mart.fact_orders` as consumed by the `customer_rollups`
statement of `transform` (src/pipeline.py lines 114-129): only the
`customer_id` and `gross_revenue` columns enter the grouping, the revenue
sum and the rank; revenue amounts are modelled exactly (as integers). -/
structure FactRow where
  customer_id : Int
  gross_revenue : Int
deriving DecidableEq

/-- A row of `mart.customer_rollups` restricted to the columns the rank
computation touches: `customer_id`, `order_count` (`COUNT(*)`),
`total_revenue` (`SUM(gross_revenue)`) and `revenue_rank`
(src/pipeline.py lines 117-125).  The timestamp and average columns are
independent of the rank and are not modelled. -/
structure RollupRow where
  customer_id : Int
  order_count : Nat
  total_revenue : Int
  revenue_rank : Nat
deriving DecidableEq

/-- The distinct customer ids of the fact table (`GROUP BY 1`). -/
def customersOf (rows : List FactRow) : List Int :=
  dedupFirst (rows.map FactRow.customer_id)

/-- The fact rows of one customer's group. -/
def rowsFor (rows : List FactRow) (c : Int) : List FactRow :=
  rows.filter (fun r => decide (r.customer_id = c))

/-- `SUM(gross_revenue)` over one customer's group. -/
def totalRevenueOf (rows : List FactRow) (c : Int) : Int :=
  ((rowsFor rows c).map FactRow.gross_revenue).foldl (· + ·) 0

/-- The grouped `(customer_id, COUNT(*), SUM(gross_revenue))` triples, one
per distinct customer. -/
def groupedTotals (rows : List FactRow) : List (Int × Nat × Int) :=
  (customersOf rows).map (fun c => (c, (rowsFor rows c).length, totalRevenueOf rows c))

/-- The comparison of `ORDER BY SUM(gross_revenue) DESC`: a group comes
first when its revenue total is at least the other's. -/
def revDescLe (p q : Int × Nat × Int) : Bool :=
  decide (q.2.2 ≤ p.2.2)

/-- Pair each element with its 1-based position. -/
def numberFrom {α : Type} (k : Nat) : List α → List (α × Nat)
  | [] => []
  | x :: xs => (x, k) :: numberFrom (k + 1) xs

/-- The `mart.customer_rollups` table of `transform`
(src/pipeline.py lines 114-129): groups `fact_orders` by customer and sets
`revenue_rank = ROW_NUMBER() OVER (ORDER BY SUM(gross_revenue) DESC)`,
i.e. the 1-based position in the revenue-descending order (the engine
leaves the relative order of ties unspecified; the model uses a stable
sort, which realises one admissible tie order). -/
def customer_rollups (rows : List FactRow) : List RollupRow :=
  (numberFrom 1 (insSort revDescLe (groupedTotals rows))).map
    (fun p => ⟨p.1.1, p.1.2.1, p.1.2.2, p.2⟩)

/-- Modelled from the spec's words ("per-customer rollups with a
revenue-based dense rank"), for comparison with `customer_rollups`: the
dense rank of a total is one more than the number of distinct totals
strictly greater than it, so tied customers share a rank and no positions
are skipped. -/
def denseRankOf (totals : List Int) (t : Int) : Nat :=
  ((dedupFirst totals).filter (fun x => decide (t < x))).length + 1

/-- The rollup table as the spec describes it, with a dense revenue rank
in place of `ROW_NUMBER`. -/
def customer_rollups_dense (rows : List FactRow) : List RollupRow :=
  (groupedTotals rows).map
    (fun p => ⟨p.1, p.2.1, p.2.2,
      denseRankOf ((groupedTotals rows).map (fun q => q.2.2)) p.2.2⟩)

/-! ### Dictionary lemmas -/

theorem dictFind_dictInsert (d : QDict) (k v n : List Char) :
    dictFind (dictInsert d k v) n = if k = n then some v else dictFind d n := by
  induction d with
  | nil => simp [dictInsert, dictFind]
  | cons p rest ih =>
    simp only [dictInsert]
    by_cases hp : p.1 = k
    · rw [if_pos hp]
      by_cases hn : k = n
      · simp [dictFind, hn]
      · have hpn : p.1 ≠ n := fun e => hn (hp.symm.trans e)
        simp [dictFind, hn, hpn]
    · rw [if_neg hp]
      by_cases hn : p.1 = n
      · have hkn : ¬k = n := fun e => hp (hn.trans e.symm)
        simp [dictFind, hn, hkn]
      · simp [dictFind, hn, ih]

theorem keysOf_dictInsert (d : QDict) (k v : List Char) :
    keysOf (dictInsert d k v) = addKey (keysOf d) k := by
  induction d with
  | nil => simp [dictInsert, keysOf, addKey]
  | cons p rest ih =>
    by_cases hp : p.1 = k
    · simp [dictInsert, keysOf, addKey, hp]
    · have hk : k ≠ p.1 := fun e => hp e.symm
      simp only [dictInsert, if_neg hp, keysOf, List.map_cons] at ih ⊢
      rw [ih]
      simp only [addKey, List.mem_cons]
      by_cases hm : k ∈ List.map Prod.fst rest <;> simp [hm, hk]

theorem mem_dictInsert (d : QDict) (k v : List Char) (p : List Char × List Char)
    (h : p ∈ dictInsert d k v) : p = (k, v) ∨ p ∈ d := by
  induction d with
  | nil => simpa [dictInsert] using h
  | cons q rest ih =>
    by_cases hq : q.1 = k
    · simp only [dictInsert, if_pos hq, List.mem_cons] at h
      rcases h with h | h
      · exact Or.inl h
      · exact Or.inr (List.mem_cons_of_mem _ h)
    · simp only [dictInsert, if_neg hq, List.mem_cons] at h
      rcases h with h | h
      · exact Or.inr (h ▸ List.mem_cons_self _ _)
      · rcases ih h with h' | h'
        · exact Or.inl h'
        · exact Or.inr (List.mem_cons_of_mem _ h')

/-- Entries produced by folding dict assignment come either from the
initial dict or from the assigned pairs. -/
theorem mem_foldl_dictInsert (ps : List (List Char × List Char)) :
    ∀ (d : QDict) (p : List Char × List Char),
      p ∈ ps.foldl (fun d pr => dictInsert d pr.1 pr.2) d → p ∈ d ∨ p ∈ ps := by
  induction ps with
  | nil => intro d p h; exact Or.inl h
  | cons q tl ih =>
    intro d p h
    rcases ih _ _ h with h' | h'
    · rcases mem_dictInsert _ _ _ _ h' with h'' | h''
      · exact Or.inr (by simp [h''])
      · exact Or.inl h''
    · exact Or.inr (List.mem_cons_of_mem _ h')

theorem dictFind_foldl_dictInsert (ps : List (List Char × List Char)) :
    ∀ (d : QDict) (n : List Char),
      dictFind (ps.foldl (fun d pr => dictInsert d pr.1 pr.2) d) n
        = lastWriteFrom (dictFind d n) ps n := by
  induction ps with
  | nil => intro d n; rfl
  | cons q tl ih =>
    intro d n
    simp only [List.foldl_cons, lastWriteFrom] at ih ⊢
    rw [ih, dictFind_dictInsert]

theorem keysOf_foldl_dictInsert (ps : List (List Char × List Char)) :
    ∀ (d : QDict),
      keysOf (ps.foldl (fun d pr => dictInsert d pr.1 pr.2) d)
        = (ps.map Prod.fst).foldl addKey (keysOf d) := by
  induction ps with
  | nil => intro d; rfl
  | cons q tl ih =>
    intro d
    simp only [List.foldl_cons, List.map_cons]
    rw [ih, keysOf_dictInsert]

theorem nodup_foldl_addKey {α : Type} [DecidableEq α] (l : List α) :
    ∀ (acc : List α), acc.Nodup → (l.foldl addKey acc).Nodup := by
  induction l with
  | nil => intro acc h; exact h
  | cons x tl ih =>
    intro acc h
    simp only [List.foldl_cons]
    apply ih
    by_cases hx : x ∈ acc
    · simpa [addKey, hx] using h
    · simp [addKey, hx, List.nodup_append, h]

theorem mem_foldl_addKey {α : Type} [DecidableEq α] (l : List α) :
    ∀ (acc : List α) (x : α), x ∈ l.foldl addKey acc → x ∈ acc ∨ x ∈ l := by
  induction l with
  | nil => intro acc x h; exact Or.inl h
  | cons y tl ih =>
    intro acc x h
    simp only [List.foldl_cons] at h
    rcases ih _ _ h with h' | h'
    · by_cases hy : y ∈ acc
      · simp [addKey, hy] at h'
        exact Or.inl h'
      · simp [addKey, hy] at h'
        rcases h' with h' | h'
        · exact Or.inl h'
        · exact Or.inr (by simp [h'])
    · exact Or.inr (List.mem_cons_of_mem _ h')

/-! ### Parser-loop structure lemmas -/

/-- The parser loop is the fold of dict assignment over the flush
sequence. -/
theorem parseLoop_eq_foldl (ls : List (List Char)) :
    ∀ (q : QDict) (cn : Option (List Char)) (buf : List (List Char)),
      parseLoop q cn buf ls
        = (flushList cn buf ls).foldl (fun d pr => dictInsert d pr.1 pr.2) q := by
  induction ls with
  | nil =>
    intro q cn buf
    simp only [parseLoop, flushList]
    split <;> simp
  | cons line rest ih =>
    intro q cn buf
    simp only [parseLoop, flushList]
    split
    · split
      · simp only [List.foldl_cons]
        exact ih _ _ _
      · exact ih _ _ _
    · exact ih _ _ _

theorem pyTruthy_iff (cn : Option (List Char)) :
    pyTruthy cn = true ↔ ∃ s, cn = some s ∧ s ≠ [] := by
  cases cn with
  | none => simp [pyTruthy]
  | some s => cases s <;> simp [pyTruthy]

theorem shouldFlush_iff (cn : Option (List Char)) (buf : List (List Char)) :
    shouldFlush cn buf = true ↔ (∃ s, cn = some s ∧ s ≠ []) ∧ buf ≠ [] := by
  simp [shouldFlush, pyTruthy_iff, List.isEmpty_iff]

theorem shouldFlush_nil_buf (cn : Option (List Char)) :
    shouldFlush cn [] = false := by
  simp [shouldFlush]

theorem shouldFlush_empty_name (buf : List (List Char)) :
    shouldFlush (some []) buf = false := by
  simp [shouldFlush, pyTruthy]

/-- Keys flushed by the loop are the active name or a directive name of the
remaining lines. -/
theorem flushList_key_mem (ls : List (List Char)) :
    ∀ (cn : Option (List Char)) (buf : List (List Char)) (p : List Char × List Char),
      p ∈ flushList cn buf ls →
        (∃ n, cn = some n ∧ p.1 = n)
          ∨ p.1 ∈ (ls.filter (fun l => isDirective l)).map nameOf := by
  induction ls with
  | nil =>
    intro cn buf p h
    simp only [flushList] at h
    split at h
    · rename_i hf
      rcases (shouldFlush_iff _ _).1 hf with ⟨⟨s, hs, _⟩, _⟩
      simp only [List.mem_singleton] at h
      exact Or.inl ⟨s, hs, by simp [h, hs]⟩
    · simp at h
  | cons line rest ih =>
    intro cn buf p h
    simp only [flushList] at h
    split at h
    · rename_i hdir
      split at h
      · rename_i hf
        rcases (shouldFlush_iff _ _).1 hf with ⟨⟨s, hs, _⟩, _⟩
        rcases List.mem_cons.1 h with h' | h'
        · exact Or.inl ⟨s, hs, by simp [h', hs]⟩
        · rcases ih _ _ _ h' with ⟨n, hn, hp⟩ | h''
          · refine Or.inr ?_
            have : p.1 = nameOf line := hp.trans (Option.some.inj hn).symm
            simp [List.filter_cons, hdir, this]
          · refine Or.inr ?_
            simp only [List.filter_cons, hdir, ite_true, List.map_cons, List.mem_cons]
            exact Or.inr h''
      · rcases ih _ _ _ h with ⟨n, hn, hp⟩ | h''
        · refine Or.inr ?_
          have : p.1 = nameOf line := hp.trans (Option.some.inj hn).symm
          simp [List.filter_cons, hdir, this]
        · refine Or.inr ?_
          simp only [List.filter_cons, hdir, ite_true, List.map_cons, List.mem_cons]
          exact Or.inr h''
    · rename_i hdir
      rcases ih _ _ _ h with h' | h''
      · exact Or.inl h'
      · refine Or.inr ?_
        simpa [List.filter_cons, hdir] using h''

/-- Keys flushed by the loop are never the empty string. -/
theorem flushList_key_ne_nil (ls : List (List Char)) :
    ∀ (cn : Option (List Char)) (buf : List (List Char)) (p : List Char × List Char),
      p ∈ flushList cn buf ls → p.1 ≠ [] := by
  induction ls with
  | nil =>
    intro cn buf p h
    simp only [flushList] at h
    split at h
    · rename_i hf
      rcases (shouldFlush_iff _ _).1 hf with ⟨⟨s, hs, hne⟩, _⟩
      simp only [List.mem_singleton] at h
      simp [h, hs, hne]
    · simp at h
  | cons line rest ih =>
    intro cn buf p h
    simp only [flushList] at h
    split at h
    · split at h
      · rename_i hf
        rcases (shouldFlush_iff _ _).1 hf with ⟨⟨s, hs, hne⟩, _⟩
        rcases List.mem_cons.1 h with h' | h'
        · simp [h', hs, hne]
        · exact ih _ _ _ h'
      · exact ih _ _ _ h
    · exact ih _ _ _ h

/-- Every flushed body is the trimmed concatenation of a run of
non-directive lines (provided the incoming buffer holds only
non-directive lines, as it always does starting from the empty buffer). -/
theorem flushList_body (ls : List (List Char)) :
    ∀ (cn : Option (List Char)) (buf : List (List Char)),
      (∀ l ∈ buf, isDirective l = false) →
      ∀ p ∈ flushList cn buf ls,
        ∃ bl, (∀ l ∈ bl, isDirective l = false) ∧ p.2 = flushBody bl := by
  induction ls with
  | nil =>
    intro cn buf hbuf p h
    simp only [flushList] at h
    split at h
    · simp only [List.mem_singleton] at h
      exact ⟨buf, hbuf, by simp [h]⟩
    · simp at h
  | cons line rest ih =>
    intro cn buf hbuf p h
    simp only [flushList] at h
    split at h
    · split at h
      · rcases List.mem_cons.1 h with h' | h'
        · exact ⟨buf, hbuf, by simp [h']⟩
        · exact ih _ _ (by simp) _ h'
      · exact ih _ _ hbuf _ h
    · rename_i hdir
      refine ih _ _ ?_ _ h
      intro l hl
      rcases List.mem_append.1 hl with hl' | hl'
      · exact hbuf _ hl'
      · simpa [List.mem_singleton.1 hl'] using hdir

/-- Processing a run of non-directive lines only extends the buffer. -/
theorem parseLoop_append_nondirective (pre : List (List Char)) :
    ∀ (q : QDict) (cn : Option (List Char)) (buf rest : List (List Char)),
      (∀ l ∈ pre, isDirective l = false) →
      parseLoop q cn buf (pre ++ rest) = parseLoop q cn (buf ++ pre) rest := by
  induction pre with
  | nil => intro q cn buf rest _; simp
  | cons l pre ih =>
    intro q cn buf rest hpre
    have hl : isDirective l = false := hpre _ (List.mem_cons_self _ _)
    calc parseLoop q cn buf ((l :: pre) ++ rest)
        = parseLoop q cn (buf ++ [l]) (pre ++ rest) := by
          simp only [List.cons_append, parseLoop, hl]
          rfl
      _ = parseLoop q cn ((buf ++ [l]) ++ pre) rest :=
          ih _ _ _ _ (fun x hx => hpre _ (List.mem_cons_of_mem _ hx))
      _ = parseLoop q cn (buf ++ l :: pre) rest := by rw [List.append_assoc]; rfl

/-- The parser loop over a split file continues from the intermediate loop
state reached after the first part. -/
theorem parseLoop_eq_parseState (xs : List (List Char)) :
    ∀ (q : QDict) (cn : Option (List Char)) (buf ys : List (List Char)),
      parseLoop q cn buf (xs ++ ys)
        = parseLoop (parseState q cn buf xs).1 (parseState q cn buf xs).2.1
            (parseState q cn buf xs).2.2 ys := by
  induction xs with
  | nil => intro q cn buf ys; rfl
  | cons line rest ih =>
    intro q cn buf ys
    simp only [List.cons_append, parseLoop, parseState]
    split
    · split
      · exact ih _ _ _ _
      · exact ih _ _ _ _
    · exact ih _ _ _ _

/-- While `current_name` is the falsy empty string, lines that are either
non-directives or further empty-name directives never flush and never
reset: the non-directive ones among them are simply appended to the
buffer. -/
theorem parseLoop_falsy_region (mid : List (List Char)) :
    ∀ (q : QDict) (buf rest : List (List Char)),
      (∀ l ∈ mid, isDirective l = false ∨ nameOf l = []) →
      parseLoop q (some []) buf (mid ++ rest)
        = parseLoop q (some []) (buf ++ mid.filter (fun l => !isDirective l)) rest := by
  induction mid with
  | nil => intro q buf rest _; simp
  | cons l mid ih =>
    intro q buf rest h
    have htail : ∀ x ∈ mid, isDirective x = false ∨ nameOf x = [] :=
      fun x hx => h _ (List.mem_cons_of_mem _ hx)
    by_cases hdl : isDirective l = true
    · have hl : nameOf l = [] := by
        rcases h l (List.mem_cons_self _ _) with h' | h'
        · rw [hdl] at h'
          exact absurd h' (by simp)
        · exact h'
      have hstep : parseLoop q (some []) buf ((l :: mid) ++ rest)
          = parseLoop q (some []) buf (mid ++ rest) := by
        simp [parseLoop, hdl, shouldFlush_empty_name, hl]
      rw [hstep, ih _ _ _ htail, List.filter_cons]
      simp [hdl]
    · have hl : isDirective l = false := by
        cases hq : isDirective l
        · rfl
        · exact absurd hq hdl
      have hstep : parseLoop q (some []) buf ((l :: mid) ++ rest)
          = parseLoop q (some []) (buf ++ [l]) (mid ++ rest) := by
        simp only [List.cons_append, parseLoop]
        rw [if_neg (by simp [hl])]
        rfl
      rw [hstep, ih _ _ _ htail, List.filter_cons]
      simp [hl, List.append_assoc]

/-! ### Whitespace lemmas -/

theorem dropWhile_eq_nil_of_all {α : Type} (f : α → Bool) (l : List α)
    (h : ∀ c ∈ l, f c = true) : l.dropWhile f = [] := by
  induction l with
  | nil => rfl
  | cons c cs ih =>
    rw [List.dropWhile_cons, if_pos (h _ (List.mem_cons_self _ _))]
    exact ih (fun x hx => h _ (List.mem_cons_of_mem _ hx))

theorem pyStrip_eq_nil_of_all_space (l : List Char)
    (h : ∀ c ∈ l, isSpaceChar c = true) : pyStrip l = [] := by
  unfold pyStrip
  rw [dropWhile_eq_nil_of_all _ _ h]
  rfl

theorem flushBody_eq_nil_of_all_space (ws : List (List Char))
    (h : ∀ l ∈ ws, ∀ c ∈ l, isSpaceChar c = true) : flushBody ws = [] := by
  unfold flushBody
  apply pyStrip_eq_nil_of_all_space
  intro c hc
  rcases List.mem_flatten.1 hc with ⟨l, hl, hcl⟩
  exact h _ hl _ hcl

theorem not_isDirective_of_all_space (l : List Char)
    (h : ∀ c ∈ l, isSpaceChar c = true) : isDirective l = false := by
  unfold isDirective
  rw [pyStrip_eq_nil_of_all_space _ h]
  rfl

/-! ### Sorting lemmas -/

theorem perm_ordInsert {α : Type} (le : α → α → Bool) (x : α) (l : List α) :
    (ordInsert le x l).Perm (x :: l) := by
  induction l with
  | nil => exact List.Perm.refl _
  | cons y ys ih =>
    by_cases h : le x y = true
    · simp only [ordInsert, if_pos h]
      exact List.Perm.refl _
    · simp only [ordInsert, if_neg h]
      exact List.Perm.trans (List.Perm.cons y ih) (List.Perm.swap x y ys)

theorem perm_insSort {α : Type} (le : α → α → Bool) (l : List α) :
    (insSort le l).Perm l := by
  induction l with
  | nil => exact List.Perm.refl _
  | cons x xs ih =>
    exact List.Perm.trans (perm_ordInsert le x (insSort le xs)) (List.Perm.cons x ih)

theorem pairwise_ordInsert {α : Type} (le : α → α → Bool)
    (htot : ∀ a b, le a b = true ∨ le b a = true)
    (htrans : ∀ a b c, le a b = true → le b c = true → le a c = true)
    (x : α) (l : List α) (h : List.Pairwise (fun a b => le a b = true) l) :
    List.Pairwise (fun a b => le a b = true) (ordInsert le x l) := by
  induction l with
  | nil => simp [ordInsert]
  | cons y ys ih =>
    rcases List.pairwise_cons.1 h with ⟨h1, h2⟩
    by_cases hxy : le x y = true
    · simp only [ordInsert, if_pos hxy]
      refine List.pairwise_cons.2 ⟨?_, h⟩
      intro z hz
      rcases List.mem_cons.1 hz with hz | hz
      · exact hz ▸ hxy
      · exact htrans x y z hxy (h1 z hz)
    · simp only [ordInsert, if_neg hxy]
      refine List.pairwise_cons.2 ⟨?_, ih h2⟩
      intro z hz
      have hz' : z ∈ x :: ys := (perm_ordInsert le x ys).mem_iff.1 hz
      rcases List.mem_cons.1 hz' with hz' | hz'
      · rcases htot x y with h' | h'
        · exact absurd h' hxy
        · exact hz'.symm ▸ h'
      · exact h1 z hz'

theorem pairwise_insSort {α : Type} (le : α → α → Bool)
    (htot : ∀ a b, le a b = true ∨ le b a = true)
    (htrans : ∀ a b c, le a b = true → le b c = true → le a c = true)
    (l : List α) : List.Pairwise (fun a b => le a b = true) (insSort le l) := by
  induction l with
  | nil => simp [insSort]
  | cons x xs ih => exact pairwise_ordInsert le htot htrans x _ ih

theorem lexLe_total (a : List Char) : ∀ (b : List Char),
    lexLe a b = true ∨ lexLe b a = true := by
  induction a with
  | nil => intro b; exact Or.inl rfl
  | cons c cs ih =>
    intro b
    cases b with
    | nil => exact Or.inr rfl
    | cons d ds =>
      by_cases h : c.toNat = d.toNat
      · rcases ih ds with h' | h'
        · exact Or.inl (by simp [lexLe, h, h'])
        · exact Or.inr (by simp [lexLe, h.symm, h'])
      · rcases Nat.lt_or_ge c.toNat d.toNat with hlt | hge
        · exact Or.inl (by simp [lexLe, h, hlt])
        · have hlt : d.toNat < c.toNat :=
            Nat.lt_of_le_of_ne hge (fun e => h e.symm)
          have h' : d.toNat ≠ c.toNat := fun e => h e.symm
          exact Or.inr (by simp [lexLe, h', hlt])

theorem lexLe_trans (a : List Char) : ∀ (b c : List Char),
    lexLe a b = true → lexLe b c = true → lexLe a c = true := by
  induction a with
  | nil => intro b c _ _; rfl
  | cons x xs ih =>
    intro b c h1 h2
    cases b with
    | nil => simp [lexLe] at h1
    | cons y ys =>
      cases c with
      | nil => simp [lexLe] at h2
      | cons z zs =>
        simp only [lexLe] at h1 h2 ⊢
        by_cases e1 : x.toNat = y.toNat
        · rw [if_pos e1] at h1
          by_cases e2 : y.toNat = z.toNat
          · rw [if_pos e2] at h2
            rw [if_pos (e1.trans e2)]
            exact ih ys zs h1 h2
          · rw [if_neg e2] at h2
            have hyz : y.toNat < z.toNat := by simpa using h2
            rw [if_neg (by omega)]
            simp only [decide_eq_true_eq]
            omega
        · rw [if_neg e1] at h1
          have hxy : x.toNat < y.toNat := by simpa using h1
          by_cases e2 : y.toNat = z.toNat
          · rw [if_neg (by omega)]
            simp only [decide_eq_true_eq]
            omega
          · rw [if_neg e2] at h2
            have hyz : y.toNat < z.toNat := by simpa using h2
            rw [if_neg (by omega)]
            simp only [decide_eq_true_eq]
            omega

/-! ### Parse-level corollaries -/

theorem keysOf_parse (ls : List (List Char)) :
    keysOf (parse_named_queries ls)
      = dedupFirst ((flushList none [] ls).map Prod.fst) := by
  rw [parse_named_queries, parseLoop_eq_foldl, keysOf_foldl_dictInsert]
  rfl

theorem dictFind_parse (ls : List (List Char)) (n : List Char) :
    dictFind (parse_named_queries ls) n
      = lastWriteFrom none (flushList none [] ls) n := by
  rw [parse_named_queries, parseLoop_eq_foldl, dictFind_foldl_dictInsert]
  rfl

theorem nodup_keysOf_parse (ls : List (List Char)) :
    (keysOf (parse_named_queries ls)).Nodup := by
  rw [keysOf_parse]
  exact nodup_foldl_addKey _ _ List.nodup_nil

theorem mem_parse (ls : List (List Char)) (p : List Char × List Char)
    (h : p ∈ parse_named_queries ls) : p ∈ flushList none [] ls := by
  rw [parse_named_queries, parseLoop_eq_foldl] at h
  rcases mem_foldl_dictInsert _ _ _ h with h' | h'
  · simp at h'
  · exact h'

theorem dictFind_eq_none (d : QDict) (n : List Char)
    (h : ∀ p ∈ d, p.1 ≠ n) : dictFind d n = none := by
  induction d with
  | nil => rfl
  | cons p rest ih =>
    simp only [dictFind, if_neg (h p (List.mem_cons_self _ _))]
    exact ih (fun q hq => h q (List.mem_cons_of_mem _ hq))

/-- The parser never stores an entry under the empty-string key. -/
theorem dictFind_parse_nil_name (ls : List (List Char)) :
    dictFind (parse_named_queries ls) [] = none := by
  apply dictFind_eq_none
  intro p hp
  exact flushList_key_ne_nil _ _ _ _ (mem_parse _ _ hp)

/-- Every key of the parsed mapping is the name of some directive line of
the file. -/
theorem parse_key_of_directive (ls : List (List Char)) (k : List Char)
    (h : k ∈ keysOf (parse_named_queries ls)) :
    k ∈ (ls.filter (fun l => isDirective l)).map nameOf := by
  rw [keysOf_parse] at h
  rcases mem_foldl_addKey _ _ _ h with h' | h'
  · simp at h'
  · rcases List.mem_map.1 h' with ⟨p, hp, hk⟩
    rcases flushList_key_mem _ _ _ _ hp with ⟨n, hn, _⟩ | h''
    · simp at hn
    · exact hk ▸ h''

/-! ### Numbering and ranking lemmas -/

theorem map_snd_numberFrom {α : Type} (l : List α) :
    ∀ k, (numberFrom k l).map Prod.snd = List.range' k l.length := by
  induction l with
  | nil => intro k; rfl
  | cons x xs ih =>
    intro k
    simp only [numberFrom, List.map_cons, List.length_cons, List.range'_succ]
    rw [ih]

theorem map_fst_numberFrom {α : Type} (l : List α) :
    ∀ k, (numberFrom k l).map Prod.fst = l := by
  induction l with
  | nil => intro k; rfl
  | cons x xs ih =>
    intro k
    simp only [numberFrom, List.map_cons]
    rw [ih]

theorem mem_numberFrom_fst {α : Type} (l : List α) :
    ∀ k (p : α × Nat), p ∈ numberFrom k l → p.1 ∈ l := by
  induction l with
  | nil => intro k p h; simp [numberFrom] at h
  | cons x xs ih =>
    intro k p h
    rcases List.mem_cons.1 h with h' | h'
    · simp [h']
    · exact List.mem_cons_of_mem _ (ih _ _ h')

theorem map_fst_comp_numberFrom {α β : Type} (g : α → β) (l : List α) :
    ∀ k, (numberFrom k l).map (fun p => g p.1) = l.map g := by
  induction l with
  | nil => intro k; rfl
  | cons x xs ih =>
    intro k
    simp only [numberFrom, List.map_cons]
    rw [ih]

theorem pairwise_numberFrom {α : Type} (R : α → α → Prop) (l : List α) :
    ∀ k, List.Pairwise R l →
      List.Pairwise (fun p q => R p.1 q.1) (numberFrom k l) := by
  induction l with
  | nil => intro k _; simp [numberFrom]
  | cons x xs ih =>
    intro k h
    rcases List.pairwise_cons.1 h with ⟨h1, h2⟩
    refine List.pairwise_cons.2 ⟨?_, ih _ h2⟩
    intro q hq
    exact h1 _ (mem_numberFrom_fst _ _ _ hq)

theorem revDescLe_total (p q : Int × Nat × Int) :
    revDescLe p q = true ∨ revDescLe q p = true := by
  simp only [revDescLe, decide_eq_true_eq]
  exact Int.le_total _ _

theorem revDescLe_trans (p q r : Int × Nat × Int)
    (h1 : revDescLe p q = true) (h2 : revDescLe q r = true) :
    revDescLe p r = true := by
  simp only [revDescLe, decide_eq_true_eq] at h1 h2 ⊢
  exact Int.le_trans h2 h1

/-! ### Claim theorems -/

/-- C5: `parse_named_queries` applied to the empty file, and more generally
to any file containing no directive lines, returns an empty mapping: the
active name stays `None`, so no flush ever fires. -/
theorem parse_no_directives_empty (ls : List (List Char))
    (h : ∀ l ∈ ls, isDirective l = false) :
    parse_named_queries ls = [] := by
  have hpre := parseLoop_append_nondirective ls [] none [] [] h
  rw [List.append_nil] at hpre
  rw [parse_named_queries, hpre]
  simp [parseLoop, shouldFlush, pyTruthy]

/-- Witness for C5: the empty file and a directive-free file both parse to
the empty mapping. -/
theorem parse_no_directives_empty_w :
    parse_named_queries [] = [] ∧ parse_named_queries ["SELECT 1;\n".data] = [] :=
  ⟨parse_no_directives_empty [] (by simp),
   parse_no_directives_empty ["SELECT 1;\n".data] (by decide)⟩

/-- C1 counterexample: a content line before the first directive is NOT
discarded — in the file `JUNK\n`, `-- name: q\n`, `SELECT 1;\n` the
pre-directive line `JUNK\n` is a prefix of the body stored for `q`,
because the buffer is only reset inside a flush and no flush precedes the
first directive. -/
theorem parse_leading_content_cex :
    parse_named_queries ["JUNK\n".data, "-- name: q\n".data, "SELECT 1;\n".data]
      = [("q".data, "JUNK\nSELECT 1;".data)]
    ∧ List.IsPrefix "JUNK\n".data "JUNK\nSELECT 1;".data := by
  refine ⟨by decide, ⟨"SELECT 1;".data, by decide⟩⟩

/-- C1 (amended): no "unnamed" entry is ever created — every key of the
returned mapping is the stripped name of a directive line of the file —
but content before the first directive is not discarded: it stays in the
line buffer, which the loop carries unchanged into the rest of the file,
so it is prepended to the first flushed body (it disappears only when no
flush ever consumes it). -/
theorem parse_leading_content_amended :
    (∀ (ls : List (List Char)) (k : List Char),
        k ∈ keysOf (parse_named_queries ls) →
        k ∈ (ls.filter (fun l => isDirective l)).map nameOf)
    ∧ ∀ (pre rest : List (List Char)), (∀ l ∈ pre, isDirective l = false) →
        parse_named_queries (pre ++ rest) = parseLoop [] none pre rest := by
  refine ⟨parse_key_of_directive, ?_⟩
  intro pre rest h
  rw [parse_named_queries, parseLoop_append_nondirective pre [] none [] rest h]
  rfl

/-- Witness for C1 (amended) at the counterexample file. -/
theorem parse_leading_content_amended_w :
    "q".data ∈ ((["JUNK\n".data, "-- name: q\n".data, "SELECT 1;\n".data].filter
        (fun l => isDirective l)).map nameOf)
    ∧ parse_named_queries (["JUNK\n".data] ++ ["-- name: q\n".data, "SELECT 1;\n".data])
        = parseLoop [] none ["JUNK\n".data] ["-- name: q\n".data, "SELECT 1;\n".data] :=
  ⟨parse_leading_content_amended.1
      ["JUNK\n".data, "-- name: q\n".data, "SELECT 1;\n".data] "q".data (by decide),
   parse_leading_content_amended.2 ["JUNK\n".data]
      ["-- name: q\n".data, "SELECT 1;\n".data] (by decide)⟩

/-- C4 counterexample: with stale buffered content, a directive immediately
followed by another directive DOES get an entry — in the file `JUNK\n`,
`-- name: only\n`, `-- name: next\n`, `SELECT 1;\n` the key `only` is
present (bound to the stale pre-directive content `JUNK`), because the
buffer holding `JUNK\n` is non-empty when the second directive is read. -/
theorem adjacent_directives_cex :
    parse_named_queries
        ["JUNK\n".data, "-- name: only\n".data, "-- name: next\n".data, "SELECT 1;\n".data]
      = [("only".data, "JUNK".data), ("next".data, "SELECT 1;".data)]
    ∧ dictFind (parse_named_queries
        ["JUNK\n".data, "-- name: only\n".data, "-- name: next\n".data, "SELECT 1;\n".data])
        "only".data = some "JUNK".data := by
  exact ⟨by decide, by decide⟩

/-- C4 (amended): provided the line buffer is empty when the first of the
two adjacent directives is read (e.g. the pair starts the file or directly
follows a flush), the first directive leaves no trace at all: parsing
`d₁ :: d₂ :: rest` from an empty buffer equals parsing `d₂ :: rest`, so no
entry is stored for the first directive's name; in particular the spec's
example file `-- name: only` / `-- name: next` / `SELECT 1;` parses to a
mapping without `only`. -/
theorem adjacent_directives_amended :
    (∀ (q : QDict) (cn : Option (List Char)) (l₁ l₂ : List Char)
        (rest : List (List Char)),
        isDirective l₁ = true → isDirective l₂ = true →
        parseLoop q cn [] (l₁ :: l₂ :: rest) = parseLoop q cn [] (l₂ :: rest))
    ∧ parse_named_queries
        ["-- name: only\n".data, "-- name: next\n".data, "SELECT 1;\n".data]
        = [("next".data, "SELECT 1;".data)] := by
  constructor
  · intro q cn l₁ l₂ rest h1 h2
    simp [parseLoop, h1, h2, shouldFlush_nil_buf]
  · decide

/-- Witness for C4 (amended): two concrete adjacent directives at the start
of a file. -/
theorem adjacent_directives_amended_w :
    isDirective "-- name: a\n".data = true
    ∧ parseLoop [] none [] ["-- name: a\n".data, "-- name: b\n".data, "B\n".data]
        = parseLoop [] none [] ["-- name: b\n".data, "B\n".data] :=
  ⟨by decide,
   adjacent_directives_amended.1 [] none "-- name: a\n".data "-- name: b\n".data
     ["B\n".data] (by decide) (by decide)⟩

/-- C9 counterexample: a directive followed only by a whitespace-only line
does NOT always get an empty body — in the file `JUNK\n`, `-- name: q\n`,
`   \n` the stale pre-directive content survives in the buffer, so `q` is
stored with body `JUNK`, not `""`. -/
theorem whitespace_only_body_cex :
    parse_named_queries ["JUNK\n".data, "-- name: q\n".data, "   \n".data]
      = [("q".data, "JUNK".data)]
    ∧ "JUNK".data ≠ ([] : List Char) := by
  exact ⟨by decide, by decide⟩

/-- C9 (amended): provided the line buffer is empty when the directive is
read and the directive's name is non-empty, a directive followed only by
whitespace-only lines (at least one) flushes an entry whose body trims to
the empty string — both at end of input and at the next directive. -/
theorem whitespace_only_body_amended (q : QDict) (cn : Option (List Char))
    (d : List Char) (ws : List (List Char))
    (hd : isDirective d = true) (hn : nameOf d ≠ []) (hws : ws ≠ [])
    (hsp : ∀ l ∈ ws, ∀ c ∈ l, isSpaceChar c = true) :
    dictFind (parseLoop q cn [] (d :: ws)) (nameOf d) = some []
    ∧ ∀ (d₂ : List Char) (rest : List (List Char)), isDirective d₂ = true →
        parseLoop q cn [] (d :: (ws ++ d₂ :: rest))
          = parseLoop (dictInsert q (nameOf d) []) (some (nameOf d₂)) [] rest := by
  have hnd : ∀ l ∈ ws, isDirective l = false :=
    fun l hl => not_isDirective_of_all_space l (hsp l hl)
  have hbody : flushBody ws = [] := flushBody_eq_nil_of_all_space ws hsp
  have hflush : shouldFlush (some (nameOf d)) ws = true :=
    (shouldFlush_iff _ _).2 ⟨⟨nameOf d, rfl, hn⟩, hws⟩
  have hstep : ∀ (tail : List (List Char)),
      parseLoop q cn [] (d :: tail) = parseLoop q (some (nameOf d)) [] tail := by
    intro tail
    simp [parseLoop, hd, shouldFlush_nil_buf]
  constructor
  · rw [hstep ws]
    have := parseLoop_append_nondirective ws q (some (nameOf d)) [] [] hnd
    rw [List.append_nil] at this
    rw [this]
    simp only [List.nil_append, parseLoop, hflush, if_true, hbody]
    rw [dictFind_dictInsert]
    simp
  · intro d₂ rest hd2
    rw [hstep (ws ++ d₂ :: rest),
      parseLoop_append_nondirective ws q (some (nameOf d)) [] (d₂ :: rest) hnd]
    simp only [List.nil_append, parseLoop, hd2, hflush, if_true, hbody]
    rfl

/-- Witness for C9 (amended) at a concrete file. -/
theorem whitespace_only_body_amended_w :
    dictFind (parseLoop [] none [] ["-- name: q\n".data, "   \n".data])
        (nameOf "-- name: q\n".data) = some []
    ∧ parseLoop [] none []
        ["-- name: q\n".data, "   \n".data, "-- name: r\n".data, "S\n".data]
        = parseLoop (dictInsert [] (nameOf "-- name: q\n".data) [])
            (some (nameOf "-- name: r\n".data)) [] ["S\n".data] := by
  have h := whitespace_only_body_amended [] none "-- name: q\n".data ["   \n".data]
    (by decide) (by decide) (by decide) (by decide)
  exact ⟨h.1, h.2 "-- name: r\n".data ["S\n".data] (by decide)⟩

/-- C10: for every input file, a directive whose name is empty after
stripping never creates an entry under the empty-string key; and the lines
following such a directive are not discarded or reset, whatever state the
file has produced so far: any file splits into the loop state reached
before the directive, the empty-name directive itself touches the buffer
only through the ordinary flush of the PREVIOUS query, subsequent
non-directive lines (and further empty-name directives) only accumulate
non-directive lines into the retained buffer, the next directive with a
non-empty name takes the retained buffer over without flushing or
resetting it, and the following flush — whether at end of input or at a
later directive — stores a body built from that retained buffer; when no
further directive follows, the retained lines are dropped at end of
input. -/
theorem empty_name_directive_thm :
    (∀ (ls : List (List Char)), dictFind (parse_named_queries ls) [] = none)
    ∧ (∀ (pre suf : List (List Char)),
        parse_named_queries (pre ++ suf)
          = parseLoop (parseState [] none [] pre).1 (parseState [] none [] pre).2.1
              (parseState [] none [] pre).2.2 suf)
    ∧ (∀ (q : QDict) (cn : Option (List Char)) (buf : List (List Char))
          (e : List Char) (mid rest : List (List Char)),
        isDirective e = true → nameOf e = [] →
        (∀ l ∈ mid, isDirective l = false ∨ nameOf l = []) →
        parseLoop q cn buf (e :: (mid ++ rest))
          = if shouldFlush cn buf then
              parseLoop (dictInsert q (cn.getD []) (flushBody buf)) (some [])
                (mid.filter (fun l => !isDirective l)) rest
            else
              parseLoop q (some []) (buf ++ mid.filter (fun l => !isDirective l)) rest)
    ∧ (∀ (q : QDict) (buf : List (List Char)) (d : List Char)
          (rest : List (List Char)),
        isDirective d = true →
        parseLoop q (some []) buf (d :: rest)
          = parseLoop q (some (nameOf d)) buf rest)
    ∧ (∀ (q : QDict) (n : List Char) (buf bs : List (List Char)),
        n ≠ [] → (∀ l ∈ bs, isDirective l = false) → buf ++ bs ≠ [] →
        parseLoop q (some n) buf bs = dictInsert q n (flushBody (buf ++ bs)))
    ∧ (∀ (q : QDict) (n : List Char) (buf bs : List (List Char))
          (d₂ : List Char) (rest : List (List Char)),
        n ≠ [] → (∀ l ∈ bs, isDirective l = false) → buf ++ bs ≠ [] →
        isDirective d₂ = true →
        parseLoop q (some n) buf (bs ++ d₂ :: rest)
          = parseLoop (dictInsert q n (flushBody (buf ++ bs)))
              (some (nameOf d₂)) [] rest)
    ∧ (∀ (q : QDict) (cn : Option (List Char)) (buf : List (List Char))
          (e : List Char) (mid : List (List Char)),
        isDirective e = true → nameOf e = [] →
        (∀ l ∈ mid, isDirective l = false ∨ nameOf l = []) →
        parseLoop q cn buf (e :: mid)
          = if shouldFlush cn buf then dictInsert q (cn.getD []) (flushBody buf)
            else q) := by
  have h3 : ∀ (q : QDict) (cn : Option (List Char)) (buf : List (List Char))
      (e : List Char) (mid rest : List (List Char)),
      isDirective e = true → nameOf e = [] →
      (∀ l ∈ mid, isDirective l = false ∨ nameOf l = []) →
      parseLoop q cn buf (e :: (mid ++ rest))
        = if shouldFlush cn buf then
            parseLoop (dictInsert q (cn.getD []) (flushBody buf)) (some [])
              (mid.filter (fun l => !isDirective l)) rest
          else
            parseLoop q (some []) (buf ++ mid.filter (fun l => !isDirective l)) rest := by
    intro q cn buf e mid rest he hen hmid
    by_cases hf : shouldFlush cn buf = true
    · have hstep : parseLoop q cn buf (e :: (mid ++ rest))
          = parseLoop (dictInsert q (cn.getD []) (flushBody buf)) (some [])
              [] (mid ++ rest) := by
        simp [parseLoop, he, hf, hen]
      rw [hstep, parseLoop_falsy_region mid _ _ _ hmid]
      simp [hf]
    · have hf2 : shouldFlush cn buf = false := by
        cases hq : shouldFlush cn buf
        · rfl
        · exact absurd hq hf
      have hstep : parseLoop q cn buf (e :: (mid ++ rest))
          = parseLoop q (some []) buf (mid ++ rest) := by
        simp [parseLoop, he, hf2, hen]
      rw [hstep, parseLoop_falsy_region mid _ _ _ hmid]
      simp [hf2]
  refine ⟨dictFind_parse_nil_name, ?_, h3, ?_, ?_, ?_, ?_⟩
  · intro pre suf
    exact parseLoop_eq_parseState pre [] none [] suf
  · intro q buf d rest hd
    simp [parseLoop, hd, shouldFlush_empty_name]
  · intro q n buf bs hn hbs hne
    have hb := parseLoop_append_nondirective bs q (some n) buf [] hbs
    rw [List.append_nil] at hb
    rw [hb]
    simp only [parseLoop]
    rw [if_pos ((shouldFlush_iff _ _).2 ⟨⟨n, rfl, hn⟩, hne⟩)]
    rfl
  · intro q n buf bs d₂ rest hn hbs hne hd2
    rw [parseLoop_append_nondirective bs q (some n) buf (d₂ :: rest) hbs]
    have hflush : shouldFlush (some n) (buf ++ bs) = true :=
      (shouldFlush_iff _ _).2 ⟨⟨n, rfl, hn⟩, hne⟩
    simp only [parseLoop, hd2, hflush, if_true]
    rfl
  · intro q cn buf e mid he hen hmid
    have hmr := h3 q cn buf e mid [] he hen hmid
    rw [List.append_nil] at hmr
    rw [hmr]
    by_cases hf : shouldFlush cn buf = true
    · simp [hf, parseLoop, shouldFlush_empty_name]
    · have hf2 : shouldFlush cn buf = false := by
        cases hq : shouldFlush cn buf
        · rfl
        · exact absurd hq hf
      simp [hf2, parseLoop, shouldFlush_empty_name]

/-- Witness for C10 at the file `JUNK\n`, `-- name: \n`, `Y\n`,
`-- name: a\n`, `Z\n` (an empty-name directive reached with a non-empty
buffer): no empty-string key exists; the file splits at the state after
`JUNK\n`; the empty-name directive and the following `Y\n` leave
`JUNK\n`, `Y\n` buffered; the directive naming `a` takes that buffer over;
and the flush stores `a`'s body from the retained buffer both at end of
input and at a later directive; with only `Y\n` following, everything
after the empty-name directive is dropped at end of input. -/
theorem empty_name_directive_w :
    dictFind (parse_named_queries
        ["JUNK\n".data, "-- name: \n".data, "Y\n".data,
          "-- name: a\n".data, "Z\n".data]) [] = none
    ∧ parse_named_queries
        (["JUNK\n".data]
          ++ ["-- name: \n".data, "Y\n".data, "-- name: a\n".data, "Z\n".data])
        = parseLoop (parseState [] none [] ["JUNK\n".data]).1
            (parseState [] none [] ["JUNK\n".data]).2.1
            (parseState [] none [] ["JUNK\n".data]).2.2
            ["-- name: \n".data, "Y\n".data, "-- name: a\n".data, "Z\n".data]
    ∧ parseLoop [] none ["JUNK\n".data]
        ("-- name: \n".data :: (["Y\n".data] ++ ["-- name: a\n".data, "Z\n".data]))
        = (if shouldFlush none ["JUNK\n".data] then
            parseLoop (dictInsert [] ((none : Option (List Char)).getD [])
                (flushBody ["JUNK\n".data])) (some [])
              (["Y\n".data].filter (fun l => !isDirective l))
              ["-- name: a\n".data, "Z\n".data]
          else
            parseLoop [] (some [])
              (["JUNK\n".data] ++ ["Y\n".data].filter (fun l => !isDirective l))
              ["-- name: a\n".data, "Z\n".data])
    ∧ parseLoop [] (some []) ["JUNK\n".data, "Y\n".data]
        ("-- name: a\n".data :: ["Z\n".data])
        = parseLoop [] (some (nameOf "-- name: a\n".data))
            ["JUNK\n".data, "Y\n".data] ["Z\n".data]
    ∧ parseLoop [] (some "a".data) ["JUNK\n".data, "Y\n".data] ["Z\n".data]
        = dictInsert [] "a".data
            (flushBody (["JUNK\n".data, "Y\n".data] ++ ["Z\n".data]))
    ∧ parseLoop [] (some "a".data) ["JUNK\n".data, "Y\n".data]
        (["Z\n".data] ++ "-- name: b\n".data :: [])
        = parseLoop (dictInsert [] "a".data
              (flushBody (["JUNK\n".data, "Y\n".data] ++ ["Z\n".data])))
            (some (nameOf "-- name: b\n".data)) [] []
    ∧ parseLoop [] none ["JUNK\n".data] ("-- name: \n".data :: ["Y\n".data])
        = (if shouldFlush none ["JUNK\n".data] then
            dictInsert [] ((none : Option (List Char)).getD [])
              (flushBody ["JUNK\n".data])
          else []) :=
  ⟨empty_name_directive_thm.1 _,
   empty_name_directive_thm.2.1 ["JUNK\n".data]
     ["-- name: \n".data, "Y\n".data, "-- name: a\n".data, "Z\n".data],
   empty_name_directive_thm.2.2.1 [] none ["JUNK\n".data] "-- name: \n".data
     ["Y\n".data] ["-- name: a\n".data, "Z\n".data]
     (by decide) (by decide) (by decide),
   empty_name_directive_thm.2.2.2.1 [] ["JUNK\n".data, "Y\n".data]
     "-- name: a\n".data ["Z\n".data] (by decide),
   empty_name_directive_thm.2.2.2.2.1 [] "a".data ["JUNK\n".data, "Y\n".data]
     ["Z\n".data] (by decide) (by decide) (by decide),
   empty_name_directive_thm.2.2.2.2.2.1 [] "a".data ["JUNK\n".data, "Y\n".data]
     ["Z\n".data] "-- name: b\n".data [] (by decide) (by decide) (by decide)
     (by decide),
   empty_name_directive_thm.2.2.2.2.2.2 [] none ["JUNK\n".data] "-- name: \n".data
     ["Y\n".data] (by decide) (by decide) (by decide)⟩

/-- C2 counterexample: in the file `-- name: a\n`, `-- name: a\n` the name
`a` appears on two directive lines, yet the returned mapping is empty —
it does not contain "exactly one entry" for `a`, because neither
occurrence ever flushes (both buffers are empty). -/
theorem duplicate_name_cex :
    parse_named_queries ["-- name: a\n".data, "-- name: a\n".data] = []
    ∧ ((["-- name: a\n".data, "-- name: a\n".data].filter
        (fun l => isDirective l)).map nameOf) = ["a".data, "a".data]
    ∧ dictFind (parse_named_queries ["-- name: a\n".data, "-- name: a\n".data])
        "a".data = none := by
  exact ⟨by decide, by decide, by decide⟩

/-- C2 (amended): the mapping contains AT MOST one entry per name (its keys
are duplicate-free), and the body stored under a name is that of the LAST
flush that assigned this name — an occurrence whose buffer is empty at
flush time assigns nothing and leaves any earlier entry (or absence)
unchanged; in particular, when the last occurrence of a duplicated name
does flush, last-write-wins and its trimmed buffer is the stored body. -/
theorem duplicate_name_amended (ls : List (List Char)) (n : List Char) :
    (keysOf (parse_named_queries ls)).Nodup
    ∧ dictFind (parse_named_queries ls) n
        = lastWriteFrom none (flushList none [] ls) n :=
  ⟨nodup_keysOf_parse ls, dictFind_parse ls n⟩

/-- C3: with no selected name, `run_queries` executes every entry of the
parsed mapping in dict iteration order; that order is the
first-occurrence order of the flushed names (replacement does not
reorder), which is file order of first flush, not alphabetical order —
witnessed by a file whose keys come out `zz, aa` while sorting would give
`aa, zz` — and a name overwritten by a later duplicate keeps its original
position, witnessed by a `b, a, b` file whose keys come out `b, a`. -/
theorem run_all_file_order :
    (∀ (ls : List (List Char)) (explain : Bool),
        run_queries ls none explain
          = Except.ok ((parse_named_queries ls).map
              (fun p => (p.1, executedSql explain p.2))))
    ∧ (∀ (ls : List (List Char)),
        keysOf (parse_named_queries ls)
          = dedupFirst ((flushList none [] ls).map Prod.fst))
    ∧ keysOf (parse_named_queries
        ["-- name: zz\n".data, "S1\n".data, "-- name: aa\n".data, "S2\n".data])
        = ["zz".data, "aa".data]
    ∧ pySorted ["zz".data, "aa".data] = ["aa".data, "zz".data]
    ∧ keysOf (parse_named_queries
        ["-- name: b\n".data, "X\n".data, "-- name: a\n".data, "Y\n".data,
          "-- name: b\n".data, "Z\n".data])
        = ["b".data, "a".data] := by
  refine ⟨?_, keysOf_parse, by decide, by decide, by decide⟩
  intro ls explain
  rw [run_queries]
  simp [pyTruthy]

/-- C6 counterexample: the empty string can be supplied as a query name
(e.g. `--name=`), is never a key of the mapping, and yet `run_queries`
does NOT fail: the truthiness test `if selected and ...` skips the check,
and `if selected and name != selected` skips no entry, so every query is
executed. -/
theorem unknown_name_error_cex :
    run_queries ["-- name: b\n".data, "S1\n".data] (some []) false
      = Except.ok [("b".data, "S1".data)]
    ∧ ([] : List Char) ∉ keysOf (parse_named_queries ["-- name: b\n".data, "S1\n".data]) := by
  exact ⟨by rfl, by decide⟩

/-- C6 (amended): for every supplied NON-EMPTY name absent from the parsed
mapping, `run_queries` fails with the `SystemExit` error (executing
nothing) whose message enumerates, after `Available: `, all names present
in the mapping in ascending sorted order — `pySorted` of the keys is a
sorted permutation of the keys; a supplied EMPTY name is falsy in Python
and instead silently behaves exactly like no selection. -/
theorem unknown_name_error_amended (ls : List (List Char)) (sel : List Char)
    (explain : Bool) (hne : sel ≠ [])
    (hmem : sel ∉ keysOf (parse_named_queries ls)) :
    run_queries ls (some sel) explain
      = Except.error (notFoundMessage sel (parse_named_queries ls))
    ∧ (pySorted (keysOf (parse_named_queries ls))).Perm
        (keysOf (parse_named_queries ls))
    ∧ List.Pairwise (fun a b => lexLe a b = true)
        (pySorted (keysOf (parse_named_queries ls)))
    ∧ run_queries ls (some []) explain = run_queries ls none explain := by
  refine ⟨?_, perm_insSort _ _, pairwise_insSort _ lexLe_total lexLe_trans _, ?_⟩
  · have hcond : (pyTruthy (some sel)
        && !(decide ((some sel).getD [] ∈ keysOf (parse_named_queries ls)))) = true := by
      have ht : pyTruthy (some sel) = true := (pyTruthy_iff _).2 ⟨sel, rfl, hne⟩
      simp [ht, hmem]
    rw [run_queries, if_pos hcond]
    rfl
  · rw [run_queries, run_queries]
    simp [pyTruthy]

/-- Witness for C6 (amended): requesting `zz` against a two-query file. -/
theorem unknown_name_error_amended_w :
    "zz".data ≠ ([] : List Char)
    ∧ "zz".data ∉ keysOf (parse_named_queries
        ["-- name: b\n".data, "S1\n".data, "-- name: a\n".data, "S2\n".data])
    ∧ run_queries ["-- name: b\n".data, "S1\n".data, "-- name: a\n".data, "S2\n".data]
        (some "zz".data) false
        = Except.error (notFoundMessage "zz".data (parse_named_queries
            ["-- name: b\n".data, "S1\n".data, "-- name: a\n".data, "S2\n".data])) :=
  ⟨by decide, by decide,
   (unknown_name_error_amended
      ["-- name: b\n".data, "S1\n".data, "-- name: a\n".data, "S2\n".data]
      "zz".data false (by decide) (by decide)).1⟩

/-- C7: a line is a directive exactly when its stripped form starts with
the literal marker `-- name:` (that is the definition of `isDirective`,
taken verbatim from the source), the recorded name is everything after
the first colon of the line with surrounding whitespace stripped
(`nameOf`), directive lines are never part of any stored body — every
body is the trimmed concatenation of non-directive lines only — and the
two-query example file parses to exactly its two expected entries. -/
theorem directive_recognition :
    (∀ (ls : List (List Char)) (p : List Char × List Char),
        p ∈ parse_named_queries ls →
        ∃ bl, (∀ l ∈ bl, isDirective l = false) ∧ p.2 = flushBody bl)
    ∧ parse_named_queries
        ["-- name: q1\n".data, "SELECT 1;\n".data,
          "-- name: q2\n".data, "SELECT 2;\n".data]
        = [("q1".data, "SELECT 1;".data), ("q2".data, "SELECT 2;".data)] := by
  constructor
  · intro ls p hp
    exact flushList_body ls none [] (by simp) p (mem_parse _ _ hp)
  · decide

/-- Witness for C7 at the example file's first entry. -/
theorem directive_recognition_w :
    ("q1".data, "SELECT 1;".data) ∈ parse_named_queries
        ["-- name: q1\n".data, "SELECT 1;\n".data,
          "-- name: q2\n".data, "SELECT 2;\n".data]
    ∧ ∃ bl, (∀ l ∈ bl, isDirective l = false)
        ∧ ("q1".data, "SELECT 1;".data).2 = flushBody bl :=
  ⟨by decide,
   directive_recognition.1
     ["-- name: q1\n".data, "SELECT 1;\n".data,
       "-- name: q2\n".data, "SELECT 2;\n".data]
     ("q1".data, "SELECT 1;".data) (by decide)⟩

/-- C8 counterexample: two customers with EQUAL total revenue (10 each) get
DIFFERENT ranks 1 and 2 from the code's `ROW_NUMBER()` — a dense rank (the
spec-modelled `customer_rollups_dense`) would give both rank 1. -/
theorem revenue_rank_dense_cex :
    customer_rollups [⟨1, 10⟩, ⟨2, 10⟩]
      = [⟨1, 1, 10, 1⟩, ⟨2, 1, 10, 2⟩]
    ∧ customer_rollups_dense [⟨1, 10⟩, ⟨2, 10⟩]
      = [⟨1, 1, 10, 1⟩, ⟨2, 1, 10, 1⟩] := by
  exact ⟨by decide, by decide⟩

/-- C8 (amended): `revenue_rank` is `ROW_NUMBER` over total revenue
descending, not a dense rank: the ranks are exactly `1..N` (all distinct,
no position skipped, so tied customers receive distinct adjacent ranks in
an engine-determined order), the table is ordered by total revenue
descending (a larger total never follows a smaller one, hence a strictly
higher total always gets a smaller rank), and every distinct customer of
the fact table appears exactly once. -/
theorem revenue_rank_amended (rows : List FactRow) :
    (customer_rollups rows).map RollupRow.revenue_rank
        = List.range' 1 (customersOf rows).length
    ∧ List.Pairwise (fun r s => s.total_revenue ≤ r.total_revenue)
        (customer_rollups rows)
    ∧ ((customer_rollups rows).map RollupRow.customer_id).Perm
        (customersOf rows) := by
  refine ⟨?_, ?_, ?_⟩
  · unfold customer_rollups
    rw [List.map_map]
    have h1 := map_snd_numberFrom (insSort revDescLe (groupedTotals rows)) 1
    have h2 : (insSort revDescLe (groupedTotals rows)).length
        = (groupedTotals rows).length := (perm_insSort _ _).length_eq
    have h3 : (groupedTotals rows).length = (customersOf rows).length := by
      simp [groupedTotals]
    rw [← h3, ← h2, ← h1]
    rfl
  · unfold customer_rollups
    refine List.Pairwise.map _ ?_
      (pairwise_numberFrom (fun a b => revDescLe a b = true) _ 1
        (pairwise_insSort revDescLe revDescLe_total revDescLe_trans _))
    intro a b hab
    simp only [revDescLe, decide_eq_true_eq] at hab
    exact hab
  · have hl : (customer_rollups rows).map RollupRow.customer_id
        = (insSort revDescLe (groupedTotals rows)).map (fun t => t.1) := by
      unfold customer_rollups
      rw [List.map_map]
      exact map_fst_comp_numberFrom (fun t : Int × Nat × Int => t.1)
        (insSort revDescLe (groupedTotals rows)) 1
    have he : (groupedTotals rows).map (fun t : Int × Nat × Int => t.1)
        = customersOf rows := by
      have hid : ((fun t : Int × Nat × Int => t.1)
          ∘ fun c : Int => (c, (rowsFor rows c).length, totalRevenueOf rows c)) = id := rfl
      rw [groupedTotals, List.map_map, hid, List.map_id]
    rw [hl, ← he]
    exact (perm_insSort _ _).map _

end Pipeline
